import Mathlib

/-!
Verification of the sandbox agent bridge
(`packages/modal-infra/src/sandbox/bridge.py`).

This file gives a shallow embedding of the bridge's logic: the ascending-ID
generator (`OpenCodeIdentifier.ascending`), the SSE parser
(`_parse_sse_stream`), the prompt stream-correlation loop
(`_stream_opencode_response_sse`), the final reconciliation fetch
(`_fetch_final_message_state`), the push handler (`_handle_push`), the
supervisor's connection-error classification (`AgentBridge.run`,
`_connect_and_run`, `_is_fatal_connection_error`) and the persisted session
pointer (`_load_session_id` / `_save_session_id`).

The environment (wall clock, HTTP responses, subprocess results, the SSE byte
stream, the file system) is modelled as explicit inputs to otherwise pure
functions; Python dictionaries decoded from JSON are modelled as structures
holding exactly the fields the code reads, with Python's `.get` defaults and
truthiness made explicit.
-/

namespace AgentBridge

/-! ## Ascending ID generator (`OpenCodeIdentifier`)

`OpenCodeIdentifier.ascending` keeps two class-level integers
(`_last_timestamp`, `_counter`).  On each call it reads the wall clock in
milliseconds, resets the counter when the millisecond changed, increments the
counter, truncates `timestamp * 0x1000 + counter` to 48 bits, and emits
`{prefix}_{12 lowercase hex chars of that value, big-endian}{14 random base62
chars}`.  We model the clock reading as an explicit argument and the random
suffix as an arbitrary character list. -/

/-- Class-level state of `OpenCodeIdentifier`: `_last_timestamp` and
`_counter`. -/
structure IdState where
  last : Nat
  counter : Nat
  deriving DecidableEq, Repr

/-- One call of `OpenCodeIdentifier.ascending`, state part: if the clock
value `t` differs from `_last_timestamp`, reset (`_last_timestamp ← t`,
`_counter ← 0`); then `_counter += 1`. -/
def ascendingStep (s : IdState) (t : Nat) : IdState :=
  let s' := if t ≠ s.last then IdState.mk t 0 else s
  IdState.mk s'.last (s'.counter + 1)

/-- The untruncated `encoded = current_timestamp * 0x1000 + counter`. -/
def rawEncoded (s : IdState) : Nat :=
  s.last * 4096 + s.counter

/-- The truncation `encoded_48bit = encoded & 0xFFFFFFFFFFFF`. -/
def encoded48 (s : IdState) : Nat :=
  rawEncoded s % 2 ^ 48

/-- Lowercase hexadecimal digit character, as produced by Python's
`bytes.hex()`. -/
def hexDigitChar (d : Nat) : Char :=
  if d < 10 then Char.ofNat (48 + d) else Char.ofNat (87 + d)

/-- Big-endian fixed-width base-16 digit list of `n` (most significant digit
first); for `n < 16 ^ k` this is exactly Python's
`n.to_bytes(k / 2, byteorder="big").hex()`. -/
def hexDigits : Nat → Nat → List Char
  | 0, _ => []
  | k + 1, n => hexDigitChar (n / 16 ^ k) :: hexDigits k (n % 16 ^ k)

/-- The characters of a generated ID:
`{prefix_str}_{timestamp_hex}{random_suffix}`.  `pre` is the resolved prefix
string (e.g. `"msg"`), `suffix` the 14 random base62 characters (kept
arbitrary here). -/
def idChars (pre : String) (s : IdState) (suffix : List Char) : List Char :=
  pre.data ++ '_' :: (hexDigits 12 (encoded48 s) ++ suffix)

/-- The generated ID as a string. -/
def idString (pre : String) (s : IdState) (suffix : List Char) : String :=
  String.mk (idChars pre s suffix)

/-- Python's `<` on strings, character-list level: strict lexicographic
comparison of the code points. -/
def listStrLtb : List Char → List Char → Bool
  | [], [] => false
  | [], _ :: _ => true
  | _ :: _, [] => false
  | c :: cs, d :: ds =>
    if c < d then true
    else if d < c then false
    else listStrLtb cs ds

/-- Python's `<` on strings: strict lexicographic comparison of the code
points. -/
def pyStrLt (s t : String) : Prop :=
  listStrLtb s.data t.data = true

/-- States after each of a sequence of calls whose clock readings are `ts`:
element `i` is the generator state right after call `i`. -/
def genStates : IdState → List Nat → List IdState
  | _, [] => []
  | s, t :: ts =>
    let s' := ascendingStep s t
    s' :: genStates s' ts

/-! ## SSE parser (`_parse_sse_stream`)

The source accumulates chunks in a buffer and, while `"\n\n"` occurs in the
buffer, splits off the first complete event, collects its `data:` lines
(`line[5:].lstrip()`, dropped when empty), joins them with `"\n"` and JSON
decodes the result.  We model the parser over the complete byte stream as a
character list, producing the raw payload strings handed to the JSON decoder
(one per event that had at least one non-empty `data` content).  The trailing
buffer segment with no terminating blank line is never processed, matching
the loop. -/

/-- Split a character list at each (non-overlapping, leftmost-first)
occurrence of the two-character separator `"\n\n"`, as the source's repeated
`buffer.split("\n\n", 1)` does over the whole stream.  The accumulator holds
the current segment reversed. -/
def splitBlankLine : List Char → List Char → List (List Char)
  | '\n' :: '\n' :: rest, acc => acc.reverse :: splitBlankLine rest []
  | c :: rest, acc => splitBlankLine rest (c :: acc)
  | [], acc => [acc.reverse]

/-- Split a character list at each `'\n'`, as `event_str.split("\n")`. -/
def splitNewline : List Char → List Char → List (List Char)
  | '\n' :: rest, acc => acc.reverse :: splitNewline rest []
  | c :: rest, acc => splitNewline rest (c :: acc)
  | [], acc => [acc.reverse]

/-- The characters of `"data:"`. -/
def sseDataTag : List Char := ['d', 'a', 't', 'a', ':']

/-- What one line of an event contributes to `data_lines`: lines beginning
with `data:` have the tag and all leading whitespace stripped
(`line[5:].lstrip()`) and are kept when the remainder is non-empty
(`if data_content:`). -/
def sseLineContribution (line : List Char) : Option (List Char) :=
  if sseDataTag.isPrefixOf line then
    if (line.drop 5).dropWhile Char.isWhitespace = [] then none
    else some ((line.drop 5).dropWhile Char.isWhitespace)
  else none

/-- Process one complete event string: collect `data:` lines, stripping the
tag and all leading whitespace (`line[5:].lstrip()`), dropping empty
remainders; join the collected lines with `"\n"`; `none` when no line was
collected (no JSON decode attempted). -/
def parseSSEEventChars (ev : List Char) : Option (List Char) :=
  match (splitNewline ev []).filterMap sseLineContribution with
  | [] => none
  | ls => some (List.intercalate ['\n'] ls)

/-- The raw JSON payload strings produced by `_parse_sse_stream` over a
complete input stream: events are the blank-line-separated segments except
the trailing unterminated one. -/
def parseSSEBufferChars (input : List Char) : List (List Char) :=
  ((splitBlankLine input []).dropLast).filterMap parseSSEEventChars

/-- The SSE event parse as the claim states it: every `data:` line
contributes its payload with the leading `data:` and any SINGLE following
space stripped (empty contributions kept), joined with `"\n"`. -/
def parseSSEEventCharsClaim (ev : List Char) : Option (List Char) :=
  let dataLines := (splitNewline ev []).filterMap fun line =>
    if sseDataTag.isPrefixOf line then
      some (match line.drop 5 with
            | ' ' :: rest => rest
            | other => other)
    else none
  match dataLines with
  | [] => none
  | ls => some (List.intercalate ['\n'] ls)

/-- The whole-buffer parse as the claim states it. -/
def parseSSEBufferCharsClaim (input : List Char) : List (List Char) :=
  ((splitBlankLine input []).dropLast).filterMap parseSSEEventCharsClaim

/-- The per-event parse as the AMENDED claim states it: lines beginning with
`data:` are kept, the tag and ALL following whitespace are stripped, only
non-empty remainders contribute, and the contributions are joined with a
newline. -/
def parseSSEEventCharsAmended (ev : List Char) : Option (List Char) :=
  match (((splitNewline ev []).filter fun line =>
      sseDataTag.isPrefixOf line).map fun line =>
        (line.drop 5).dropWhile Char.isWhitespace).filter
          fun c => !c.isEmpty with
  | [] => none
  | ls => some (List.intercalate ['\n'] ls)

/-- The whole-buffer parse as the amended claim states it. -/
def parseSSEBufferCharsAmended (input : List Char) : List (List Char) :=
  ((splitBlankLine input []).dropLast).filterMap parseSSEEventCharsAmended

/-! ## Persisted session pointer (`_load_session_id` / `_save_session_id`)

One file `<tempdir>/opencode-session-id`.  `_save_session_id` writes
`opencode_session_id` when it is truthy.  `_load_session_id` reads the file
when it exists, strips surrounding whitespace, and then validates the id
against the sub-agent (`GET /session/<id>`); a non-200 response or an
exception clears the pointer.  The file system is an `Option String` (the
file's content when present) and the validation an oracle
`String → Bool`. -/

/-- Python `str.strip()` on the characters (whitespace from both ends). -/
def pyStripChars (l : List Char) : List Char :=
  ((l.dropWhile Char.isWhitespace).reverse.dropWhile Char.isWhitespace).reverse

/-- Python `str.strip()`. -/
def pyStrip (s : String) : String :=
  String.mk (pyStripChars s.data)

/-- Model of `_save_session_id`: write the id when truthy (non-empty), else leave the
file untouched. -/
def saveSessionId (file : Option String) (sid : String) : Option String :=
  if sid ≠ "" then some sid else file

/-- Model of `_load_session_id`: the resulting `opencode_session_id`.  Absent file
leaves the pointer unset; otherwise the stripped content is kept exactly when
the sub-agent validation (`GET /session/<id>` returning 200) accepts it. -/
def loadSessionId (file : Option String) (validateOk : String → Bool) :
    Option String :=
  match file with
  | none => none
  | some content =>
    let sid := pyStrip content
    if validateOk sid then some sid else none

/-! ## Outbound events (bridge → control plane)

The outbound frames put through `_send_event`, holding exactly the fields the
source writes into each dictionary (besides the `sandboxId`/`timestamp`
annotation that `_send_event` adds to every frame).  `cost`, `tokens` and
`reason` of `step_finish` are opaque JSON passthrough values, modelled as
optional strings. -/

/-- One outbound event frame. -/
inductive BridgeEvent where
  | token (content messageId : String)
  | toolCall (tool : String) (args : List (String × String))
      (callId status output messageId : String)
  | stepStart (messageId : String)
  | stepFinish (cost tokens reason : Option String) (messageId : String)
  | errorEv (error messageId : String)
  | executionComplete (messageId : String) (success : Bool)
      (error : Option String)
  | pushComplete (branchName : String)
  | pushError (error : String) (branchName : Option String)
  deriving DecidableEq, Repr

/-- Python truthiness of an optional string (`None` and `""` are falsy). -/
def truthyOpt : Option String → Bool
  | some s => s ≠ ""
  | none => false

/-- Python `a or b` on two optional strings (`a` when truthy, else `b`). -/
def pyOrOpt : Option String → Option String → Option String
  | some s, b => if s = "" then b else some s
  | none, b => b

/-- Python `a or b` where `a` is an optional string and `b` a string. -/
def pyOrStr : Option String → String → String
  | some s, b => if s = "" then b else s
  | none, b => b

/-! ## Supervisor error classification (`AgentBridge.run`,
`_connect_and_run`, `_is_fatal_connection_error`)

`_connect_and_run` catches `InvalidStatus` from the WebSocket upgrade and
re-raises statuses 401/403/404/410 as `SessionTerminatedError`.  `run`
handles `SessionTerminatedError` by logging "User can restore by sending a
new prompt", setting the shutdown event and breaking out of the loop; any
other exception is checked against `_is_fatal_connection_error` (substring
match of "HTTP 401/403/404/410" on `str(e)`): fatal ones set shutdown and
break, the rest fall through to the backoff/reconnect sleep. -/

/-- Whether `pat` occurs as a contiguous substring of `l` (Python's
`pattern in error_str`). -/
def containsSub (pat l : List Char) : Bool :=
  (List.range (l.length + 1)).any fun i => pat.isPrefixOf (l.drop i)

/-- Model of `_is_fatal_connection_error`: any of the four fatal HTTP patterns occurs
in the error's textual representation. -/
def isFatalConnectionError (msg : String) : Bool :=
  ["HTTP 401", "HTTP 403", "HTTP 404", "HTTP 410"].any fun pat =>
    containsSub pat.data msg.data

/-- The textual `str(e)` of the `websockets.InvalidStatus` raised when the WebSocket
upgrade is rejected with the given HTTP status code. -/
def invalidStatusMessage (status : Nat) : String :=
  "server rejected WebSocket connection: HTTP " ++ toString status

/-- Failure raised out of `_connect_and_run` when the upgrade is rejected. -/
inductive ConnectFailure where
  | sessionTerminated (status : Nat)
  | invalidStatus (status : Nat)
  deriving DecidableEq, Repr

/-- The `except InvalidStatus` clause of `_connect_and_run`: statuses
401/403/404/410 are re-raised as `SessionTerminatedError`, everything else
propagates unchanged. -/
def classifyUpgradeRejection (status : Nat) : ConnectFailure :=
  if status = 401 ∨ status = 403 ∨ status = 404 ∨ status = 410 then
    .sessionTerminated status
  else
    .invalidStatus status

/-- What the supervisor loop in `run` does with one failed connection
attempt. -/
inductive SupervisorAction where
  | exitSessionTerminated
  | exitFatal
  | reconnect
  deriving DecidableEq, Repr

/-- The `except` clauses of `run`: `SessionTerminatedError` logs
"Session terminated by control plane. User can restore by sending a new
prompt.", sets the shutdown event and breaks (no reconnect);
other exceptions break with shutdown set when
`_is_fatal_connection_error(str(e))`, and otherwise reach the
backoff/reconnect sleep. -/
def runLoopAction : ConnectFailure → SupervisorAction
  | .sessionTerminated _ => .exitSessionTerminated
  | .invalidStatus s =>
    if isFatalConnectionError (invalidStatusMessage s) then .exitFatal
    else .reconnect

/-- End-to-end outcome of a connection attempt whose WebSocket upgrade is
rejected with the given HTTP status. -/
def upgradeRejectedAction (status : Nat) : SupervisorAction :=
  runLoopAction (classifyUpgradeRejection status)

/-! ## Push handler (`_handle_push`, `_resolve_github_token`)

Inputs: the decoded `push` command, the process environment, whether a
`<repoPath>/*/.git` directory exists, and the result (exit code, stderr) the
`git push` subprocess would produce if executed.  Output: the emitted events
and whether the subprocess was executed. -/

/-- Decoded fields of a `push` command frame (`cmd.get(...)`). -/
structure PushCommand where
  branchName : String := ""
  repoOwner : Option String := none
  repoName : Option String := none
  githubToken : Option String := none
  deriving DecidableEq, Repr

/-- The environment variables `_handle_push` reads. -/
structure PushEnv where
  repoOwner : Option String := none
  repoName : Option String := none
  githubAppToken : Option String := none
  deriving DecidableEq, Repr

/-- Result of the `git push` subprocess. -/
structure GitPushResult where
  exitCode : Nat
  stderr : String
  deriving DecidableEq, Repr

/-- Model of `_resolve_github_token`: fresh command token when truthy, else the
`GITHUB_APP_TOKEN` environment variable when truthy, else the empty token;
paired with the source label used for logging. -/
def resolveGithubToken (cmdToken envToken : Option String) : String × String :=
  if truthyOpt cmdToken then (cmdToken.getD "", "fresh from command")
  else if truthyOpt envToken then (envToken.getD "", "from env")
  else ("", "none")

/-- Model of `_handle_push`: the emitted events and whether `git push` was executed.
The stderr of a failed push is decoded into `_error_msg` and intentionally
discarded by the source; the emitted `push_error` carries the fixed
message. -/
def handlePush (cmd : PushCommand) (env : PushEnv) (repoFound : Bool)
    (git : GitPushResult) : List BridgeEvent × Bool :=
  let branchName := cmd.branchName
  let repoOwner := pyOrStr cmd.repoOwner (env.repoOwner.getD "")
  let repoName := pyOrStr cmd.repoName (env.repoName.getD "")
  let githubToken := (resolveGithubToken cmd.githubToken env.githubAppToken).1
  if ¬ repoFound then
    ([.pushError "No repository found" none], false)
  else if githubToken = "" ∨ repoOwner = "" ∨ repoName = "" then
    ([.pushError "Push failed - GitHub authentication token is required"
        (some branchName)], false)
  else if git.exitCode ≠ 0 then
    ([.pushError "Push failed - authentication may be required"
        (some branchName)], true)
  else
    ([.pushComplete branchName], true)

/-! ## Prompt pipeline (`_stream_opencode_response_sse`,
`_fetch_final_message_state`, `_handle_prompt`)

Decoded SSE events are modelled as structures holding the fields the code
reads, with Python `.get` defaults.  The per-prompt state is
`cumulative_text` (an association list read through `lookupCum`, updated by
shadowing cons), `emitted_tool_states` and `our_assistant_msg_ids`.

Every emission is tagged (first component) with the id of the text part it
was accumulated for, or `none` for emissions not tied to a text part; the
bridge's actual outbound frames are the untagged second components.  The tag
is ghost instrumentation used to state per-part properties and does not
influence any computation. -/

/-- Fields read from `properties.part` of an SSE event (`part.get(...)`;
`state.get(...)` for the tool state).  `toolInput` models `state["input"]`
as key/value pairs (`[]` is Python's empty, falsy dict). -/
structure PartData where
  type : String := ""
  id : String := ""
  messageID : String := ""
  sessionID : Option String := none
  text : String := ""
  tool : String := ""
  callID : String := ""
  status : String := ""
  toolInput : List (String × String) := []
  output : String := ""
  cost : Option String := none
  tokens : Option String := none
  reason : Option String := none
  deriving DecidableEq, Repr

/-- Fields read from `properties.info` of a `message.updated` event. -/
structure MessageInfo where
  sessionID : Option String := none
  id : String := ""
  parentID : String := ""
  role : String := ""
  finish : String := ""
  deriving DecidableEq, Repr

/-- A decoded SSE event: the fields of `properties` the code reads.
`statusType` is `properties.status.type`, `errorMessage` the message text of
`properties.error` (absent when the error dictionary has no message). -/
structure SSEEvent where
  type : String := ""
  sessionID : Option String := none
  part : Option PartData := none
  delta : Option String := none
  info : Option MessageInfo := none
  statusType : Option String := none
  errorMessage : Option String := none
  deriving DecidableEq, Repr

/-- Per-prompt correlation state: `cumulative_text`, `emitted_tool_states`,
`our_assistant_msg_ids`. -/
structure PromptState where
  cumulative : List (String × String) := []
  emittedToolStates : List String := []
  tracked : List String := []
  deriving DecidableEq, Repr

/-- Read `cumulative_text.get(part_id, "")` from the association list. -/
def lookupCum (m : List (String × String)) (k : String) : String :=
  match m.find? (fun p => p.1 == k) with
  | some p => p.2
  | none => ""

/-- Python `set.add`. -/
def insertStr (l : List String) (s : String) : List String :=
  if s ∈ l then l else s :: l

/-- The session filter of the stream loop:
`props.get("sessionID") or props.get("part", {}).get("sessionID")`, skipped
when that value is truthy and differs from the current sub-agent session. -/
def sessionFilterSkips (cur : String) (e : SSEEvent) : Bool :=
  let eid := pyOrOpt e.sessionID (e.part.bind PartData.sessionID)
  truthyOpt eid && decide (eid ≠ some cur)

/-- The expression `error.get("message") ... or "Unknown error"` of the `session.error`
branch. -/
def errorMessageOf : Option String → String
  | some m => if m = "" then "Unknown error" else m
  | none => "Unknown error"

/-- Model of `_transform_part_to_event`. -/
def transformPartToEvent (part : PartData) (mid : String) :
    Option BridgeEvent :=
  if part.type = "text" then
    if part.text ≠ "" then some (.token part.text mid) else none
  else if part.type = "tool" then
    if (part.status = "pending" ∨ part.status = "") ∧ part.toolInput = [] then
      none
    else
      some (.toolCall part.tool part.toolInput part.callID part.status
        part.output mid)
  else if part.type = "step-finish" then
    some (.stepFinish part.cost part.tokens part.reason mid)
  else if part.type = "step-start" then
    some (.stepStart mid)
  else none

/-- How the stream loop of `_stream_opencode_response_sse` ends. -/
inductive StreamSignal where
  | idle
  | errored
  deriving DecidableEq, Repr

/-- The new value of `cumulative_text[part_id]` after a text part event:
append the truthy delta to the accumulated text, otherwise replace it with
the event's full text. -/
def newTextValue (st : PromptState) (partId text : String)
    (delta : Option String) : String :=
  match delta with
  | some d => if d ≠ "" then lookupCum st.cumulative partId ++ d else text
  | none => text

/-- The `text` part branch: update `cumulative_text[part_id]` and emit a
`token` carrying the updated accumulated text when it is non-empty
(`if cumulative_text.get(part_id):`). -/
def applyTextPart (st : PromptState) (partId text : String)
    (delta : Option String) (mid : String) :
    PromptState × List (Option String × BridgeEvent) × Option StreamSignal :=
  if newTextValue st partId text delta ≠ "" then
    ({ st with
        cumulative := (partId, newTextValue st partId text delta) ::
          st.cumulative },
      [(some partId, .token (newTextValue st partId text delta) mid)], none)
  else
    ({ st with
        cumulative := (partId, newTextValue st partId text delta) ::
          st.cumulative },
      [], none)

/-- The deduplication key `"tool:<callId>:<status>"`. -/
def toolStateKey (part : PartData) : String :=
  "tool:" ++ part.callID ++ ":" ++ part.status

/-- The `tool` part branch: transform; skip when not ready; otherwise emit
once per `"tool:<callId>:<status>"` key. -/
def applyToolPart (st : PromptState) (part : PartData) (mid : String) :
    PromptState × List (Option String × BridgeEvent) × Option StreamSignal :=
  match transformPartToEvent part mid with
  | none => (st, [], none)
  | some ev =>
    if toolStateKey part ∈ st.emittedToolStates then (st, [], none)
    else
      ({ st with
          emittedToolStates := toolStateKey part :: st.emittedToolStates },
        [(none, ev)], none)

/-- One iteration of the stream-processing loop of
`_stream_opencode_response_sse` (lines 646-805): the updated per-prompt
state, the tagged emissions, and the signal ending the loop (`idle` triggers
the final reconciliation fetch, `errored` follows the emitted `error`
event). -/
def processEvent (cur ourId mid : String) (st : PromptState) (e : SSEEvent) :
    PromptState × List (Option String × BridgeEvent) × Option StreamSignal :=
  if e.type = "server.connected" then (st, [], none)
  else if e.type = "server.heartbeat" then (st, [], none)
  else if sessionFilterSkips cur e then (st, [], none)
  else if e.type = "message.updated" then
    if (e.info.getD {}).sessionID = some cur ∧
        (e.info.getD {}).role = "assistant" ∧
        (e.info.getD {}).parentID = ourId ∧ (e.info.getD {}).id ≠ "" then
      ({ st with tracked := insertStr st.tracked (e.info.getD {}).id },
        [], none)
    else (st, [], none)
  else if e.type = "message.part.updated" then
    if st.tracked ≠ [] ∧ (e.part.getD {}).messageID ∉ st.tracked then
      (st, [], none)
    else if (e.part.getD {}).type = "text" then
      applyTextPart st (e.part.getD {}).id (e.part.getD {}).text e.delta mid
    else if (e.part.getD {}).type = "tool" then
      applyToolPart st (e.part.getD {}) mid
    else if (e.part.getD {}).type = "step-start" then
      (st, [(none, .stepStart mid)], none)
    else if (e.part.getD {}).type = "step-finish" then
      (st, [(none, .stepFinish (e.part.getD {}).cost (e.part.getD {}).tokens
        (e.part.getD {}).reason mid)], none)
    else (st, [], none)
  else if e.type = "session.idle" then
    if e.sessionID = some cur then (st, [], some .idle) else (st, [], none)
  else if e.type = "session.status" then
    if e.sessionID = some cur ∧ e.statusType = some "idle" then
      (st, [], some .idle)
    else (st, [], none)
  else if e.type = "session.error" then
    if e.sessionID = some cur then
      (st, [(none, .errorEv (errorMessageOf e.errorMessage) mid)],
        some .errored)
    else (st, [], none)
  else (st, [], none)

/-- One record of the `GET /session/<id>/message` response used by the final
reconciliation: the `info` fields the code reads plus the parts. -/
structure FinalPart where
  type : String := ""
  id : String := ""
  text : String := ""
  deriving DecidableEq, Repr

/-- A message record returned by `GET /session/<id>/message`. -/
structure OCMessage where
  role : String := ""
  id : String := ""
  parentID : String := ""
  parts : List FinalPart := []
  deriving DecidableEq, Repr

/-- Inner loop of `_fetch_final_message_state` over the parts of one matched
message: for each text part whose full text is longer than the previously
sent text, update the cumulative value and emit one `token` with the full
text. -/
def reconcilePart (mid : String)
    (acc : List (String × String) × List (Option String × BridgeEvent))
    (part : FinalPart) :
    List (String × String) × List (Option String × BridgeEvent) :=
  if part.type = "text" then
    if (lookupCum acc.1 part.id).length < part.text.length then
      ((part.id, part.text) :: acc.1,
        acc.2 ++ [(some part.id, .token part.text mid)])
    else acc
  else acc

/-- Outer loop of `_fetch_final_message_state` over the returned messages:
skip non-assistant messages and messages matching neither the `parentID`
check nor the tracked-id fallback (`tracked_msg_ids and msg_id in
tracked_msg_ids`). -/
def reconcileMessage (mid ourId : String) (tracked : List String)
    (acc : List (String × String) × List (Option String × BridgeEvent))
    (msg : OCMessage) :
    List (String × String) × List (Option String × BridgeEvent) :=
  if msg.role ≠ "assistant" then acc
  else if ¬ (msg.parentID = ourId) ∧ ¬ (tracked ≠ [] ∧ msg.id ∈ tracked) then
    acc
  else msg.parts.foldl (reconcilePart mid) acc

/-- Model of `_fetch_final_message_state` over a successfully fetched message list:
the final cumulative map and the tagged emissions. -/
def fetchFinalMessageState (mid ourId : String)
    (cum : List (String × String)) (tracked : List String)
    (messages : List OCMessage) :
    List (String × String) × List (Option String × BridgeEvent) :=
  messages.foldl (reconcileMessage mid ourId tracked) (cum, [])

/-- The final reconciliation as the claim states it, part level: every text
part whose full text is strictly longer than the previously emitted
cumulative value updates the cumulative value and emits one new token with
the full text; non-longer text parts produce no token. -/
def reconClaimParts (mid : String) :
    List (String × String) → List FinalPart →
    List (String × String) × List (Option String × BridgeEvent)
  | cum, [] => (cum, [])
  | cum, part :: rest =>
    if part.type = "text" ∧ (lookupCum cum part.id).length < part.text.length
    then
      let next := reconClaimParts mid ((part.id, part.text) :: cum) rest
      (next.1, (some part.id, .token part.text mid) :: next.2)
    else reconClaimParts mid cum rest

/-- The final reconciliation as the claim states it, message level: process
exactly the assistant messages whose `parentID` equals `ourAscendingId` or
whose id is in `trackedAssistantIds`. -/
def reconClaim (mid ourId : String) (tracked : List String) :
    List (String × String) → List OCMessage →
    List (String × String) × List (Option String × BridgeEvent)
  | cum, [] => (cum, [])
  | cum, msg :: rest =>
    if msg.role = "assistant" ∧ (msg.parentID = ourId ∨ msg.id ∈ tracked) then
      let inner := reconClaimParts mid cum msg.parts
      let next := reconClaim mid ourId tracked inner.1 rest
      (next.1, inner.2 ++ next.2)
    else reconClaim mid ourId tracked cum rest

/-- How the prompt's SSE processing ended. -/
inductive StreamEnd where
  | idle
  | errored
  | streamClosed
  deriving DecidableEq, Repr

/-- The whole stream-processing loop over a list of decoded SSE events:
tagged emissions and the way the loop ended.  `finalMsgs` is the message
list a successful reconciliation fetch returns on `session.idle`; a stream
that ends without an idle or error signal just stops (the sub-agent closed
the stream). -/
def streamRun (cur ourId mid : String) (finalMsgs : List OCMessage) :
    PromptState → List SSEEvent →
    List (Option String × BridgeEvent) × StreamEnd
  | _, [] => ([], .streamClosed)
  | st, e :: rest =>
    match processEvent cur ourId mid st e with
    | (st', out, none) =>
      let next := streamRun cur ourId mid finalMsgs st' rest
      (out ++ next.1, next.2)
    | (st', out, some .idle) =>
      (out ++ (fetchFinalMessageState mid ourId st'.cumulative st'.tracked
        finalMsgs).2, .idle)
    | (_, out, some .errored) => (out, .errored)

/-- The non-exception path of `_handle_prompt`: send every event the stream
yields, then send `execution_complete{success: true}`. -/
def handlePromptEvents (cur ourId mid : String) (finalMsgs : List OCMessage)
    (events : List SSEEvent) : List BridgeEvent :=
  ((streamRun cur ourId mid finalMsgs {} events).1.map Prod.snd) ++
    [.executionComplete mid true none]

/-- The contents of the `token` events attributed (by the ghost tag) to the
text part `p`, in emission order. -/
def tokenContentsForPart (p : String)
    (out : List (Option String × BridgeEvent)) : List String :=
  out.filterMap fun x =>
    match x with
    | (some q, .token c _) => if q = p then some c else none
    | _ => none

/-- When the event would reach the text branch in the full-text replacement
mode (no truthy delta), the part id and replacement text it carries. -/
def textReplaceTarget (cur : String) (st : PromptState) (e : SSEEvent) :
    Option (String × String) :=
  if e.type = "message.part.updated" ∧ sessionFilterSkips cur e = false then
    if st.tracked ≠ [] ∧ (e.part.getD {}).messageID ∉ st.tracked then none
    else if (e.part.getD {}).type = "text" ∧
        (e.delta = none ∨ e.delta = some "") then
      some ((e.part.getD {}).id, (e.part.getD {}).text)
    else none
  else none

/-- The replacement text of a full-text update is at least as long as the
text accumulated so far for that part (the hypothesis under which the
emitted token lengths are non-decreasing). -/
def shrinkCheck (cur : String) (st : PromptState) (e : SSEEvent) : Bool :=
  match textReplaceTarget cur st e with
  | some pt => (lookupCum st.cumulative pt.1).length ≤ pt.2.length
  | none => true

/-- Whether `shrinkCheck` holds at every step actually taken by the stream loop. -/
def replaceOKrun (cur ourId mid : String) :
    PromptState → List SSEEvent → Bool
  | _, [] => true
  | st, e :: rest =>
    shrinkCheck cur st e &&
      (match processEvent cur ourId mid st e with
       | (st', _, none) => replaceOKrun cur ourId mid st' rest
       | (_, _, some _) => true)

/-- Whether an outbound event is an `execution_complete` frame. -/
def isExecutionComplete : BridgeEvent → Bool
  | .executionComplete _ _ _ => true
  | _ => false

/-- Whether an outbound event is an `execution_complete` frame with
`success: false`. -/
def isFailureComplete : BridgeEvent → Bool
  | .executionComplete _ false _ => true
  | _ => false

/-- Concrete `message.part.updated` SSE event carrying a full (no-delta)
text update for a part. -/
def textUpdateEvent (pid text : String) : SSEEvent :=
  { type := "message.part.updated",
    part := some { type := "text", id := pid, text := text } }

/-- Concrete `session.error` SSE event for a session. -/
def sessionErrorEvent (sid msg : String) : SSEEvent :=
  { type := "session.error", sessionID := some sid,
    errorMessage := some msg }

/-! ## Theorems -/

/-- C10: when no `<repoPath>/*/.git` directory exists, the push handler
emits exactly one `push_error` event whose error field is
"No repository found" and which carries no `branchName`, executes no git
subprocess, and does so regardless of the command's and environment's token,
owner and name values. -/
theorem c10_push_no_repo (cmd : PushCommand) (env : PushEnv)
    (git : GitPushResult) :
    handlePush cmd env false git =
      ([.pushError "No repository found" none], false) := by
  simp [handlePush]

/-- C6: when the repository exists, token / owner / name resolve to
non-empty values and the git subprocess exits non-zero, the push handler
emits exactly one `push_error` event whose error field is exactly
"Push failed - authentication may be required" together with the branch
name; the event does not depend on the subprocess stderr, so two runs
differing only in the stderr bytes produce identical outbound events. -/
theorem c6_push_error_redacted (cmd : PushCommand) (env : PushEnv)
    (git : GitPushResult)
    (htok : (resolveGithubToken cmd.githubToken env.githubAppToken).1 ≠ "")
    (howner : pyOrStr cmd.repoOwner (env.repoOwner.getD "") ≠ "")
    (hname : pyOrStr cmd.repoName (env.repoName.getD "") ≠ "")
    (hexit : git.exitCode ≠ 0) :
    handlePush cmd env true git =
      ([.pushError "Push failed - authentication may be required"
          (some cmd.branchName)], true) ∧
    ∀ git2 : GitPushResult, git2.exitCode = git.exitCode →
      handlePush cmd env true git2 = handlePush cmd env true git := by
  constructor
  · simp [handlePush, htok, howner, hname, hexit]
  · intro git2 h2
    simp [handlePush, h2]

/-- C6 witness: a concrete failed push; the emitted event is the fixed
redacted one and any stderr with the same exit code gives the same
output. -/
theorem c6_push_error_redacted_witness :
    handlePush
        { branchName := "feat/x", githubToken := some "tok",
          repoOwner := some "owner", repoName := some "repo" } {} true
        ⟨1, "fatal: could not read Username"⟩ =
      ([.pushError "Push failed - authentication may be required"
          (some "feat/x")], true) ∧
    ∀ git2 : GitPushResult, git2.exitCode = 1 →
      handlePush
          { branchName := "feat/x", githubToken := some "tok",
            repoOwner := some "owner", repoName := some "repo" } {} true git2 =
        handlePush
          { branchName := "feat/x", githubToken := some "tok",
            repoOwner := some "owner", repoName := some "repo" } {} true
          ⟨1, "fatal: could not read Username"⟩ :=
  c6_push_error_redacted _ _ _ (by decide) (by decide) (by decide) (by decide)

/-- C4 counterexample: an upgrade rejected with HTTP 401 — not 410 — also
produces the SessionTerminated outcome (shutdown set, supervisor exits, no
reconnect), so that outcome is not produced for HTTP 410 specifically. -/
theorem c4_counterexample :
    upgradeRejectedAction 401 = .exitSessionTerminated ∧ (401 : Nat) ≠ 410 := by
  decide

/-- C4 amended: the SessionTerminated outcome (the "User can restore by
sending a new prompt" log, shutdown set, supervisor exits with no reconnect
attempt) is produced for HTTP 401, 403, 404 and 410 alike; an upgrade
rejected with HTTP 410 never enters the backoff/reconnect loop, while an
upgrade rejected with HTTP 500 does. -/
theorem c4_amended_terminated_statuses :
    (∀ s : Nat, s = 401 ∨ s = 403 ∨ s = 404 ∨ s = 410 →
      upgradeRejectedAction s = .exitSessionTerminated) ∧
    upgradeRejectedAction 410 = .exitSessionTerminated ∧
    upgradeRejectedAction 410 ≠ .reconnect ∧
    upgradeRejectedAction 500 = .reconnect := by
  refine ⟨?_, by decide, by decide, by decide⟩
  rintro s (rfl | rfl | rfl | rfl) <;> decide

/-- C4 witness: HTTP 403 produces the SessionTerminated outcome. -/
theorem c4_witness :
    upgradeRejectedAction 403 = .exitSessionTerminated :=
  c4_amended_terminated_statuses.1 403 (Or.inr (Or.inl rfl))

/-- C8 counterexample: writing the pointer string " x " and loading it back
returns "x", not the written string — the load strips surrounding
whitespace. -/
theorem c8_counterexample :
    loadSessionId (saveSessionId none " x ") (fun _ => true) = some "x" ∧
    loadSessionId (saveSessionId none " x ") (fun _ => true) ≠ some " x " := by
  constructor <;> decide

/-- C8 amended: for every non-empty pointer string equal to its own
whitespace-stripped form, writing it and then loading (with the sub-agent
validating the id) returns exactly the written string; when the pointer file
is absent the load leaves the session pointer unset. -/
theorem c8_amended_roundtrip (file : Option String) (s : String)
    (validate : String → Bool) (hstrip : pyStrip s = s) (hne : s ≠ "")
    (hvalid : validate s = true) :
    loadSessionId (saveSessionId file s) validate = some s ∧
    loadSessionId none validate = none := by
  constructor
  · simp [saveSessionId, loadSessionId, hne, hstrip, hvalid]
  · rfl

/-- C8 witness: round trip at a concrete whitespace-free id. -/
theorem c8_witness :
    pyStrip "ses_abc123" = "ses_abc123" ∧
    ("ses_abc123" : String) ≠ "" ∧
    (loadSessionId (saveSessionId none "ses_abc123") (fun _ => true) =
        some "ses_abc123" ∧
      loadSessionId none (fun _ => true) = none) :=
  ⟨by decide, by decide,
    c8_amended_roundtrip none "ses_abc123" (fun _ => true) (by decide)
      (by decide) rfl⟩

/-- The `data:` line collection of the source (`filterMap` with stripping
and the emptiness guard fused) equals the amended claim's pipeline
(filter the `data:` lines, strip tag and all leading whitespace, keep the
non-empty remainders). -/
theorem dataLines_filterMap_eq (l : List (List Char)) :
    l.filterMap sseLineContribution =
    ((l.filter fun line => sseDataTag.isPrefixOf line).map
      fun line => (line.drop 5).dropWhile Char.isWhitespace).filter
        fun c => !c.isEmpty := by
  induction l with
  | nil => rfl
  | cons a l ih =>
    by_cases h : sseDataTag.isPrefixOf a
    · by_cases h2 : (a.drop 5).dropWhile Char.isWhitespace = []
      · have hc : sseLineContribution a = none := by
          unfold sseLineContribution
          rw [if_pos h, if_pos h2]
        rw [List.filterMap_cons, hc, List.filter_cons, if_pos h,
          List.map_cons, List.filter_cons, h2]
        simpa using ih
      · have hc : sseLineContribution a =
            some ((a.drop 5).dropWhile Char.isWhitespace) := by
          unfold sseLineContribution
          rw [if_pos h, if_neg h2]
        rw [List.filterMap_cons, hc, List.filter_cons, if_pos h,
          List.map_cons, List.filter_cons,
          if_pos (by simpa [List.isEmpty_iff] using h2), ih]
    · have hc : sseLineContribution a = none := by
        unfold sseLineContribution
        rw [if_neg h]
      rw [List.filterMap_cons, hc, List.filter_cons, if_neg h, ih]

/-- Per-event form of the amended C7 claim. -/
theorem parseSSEEventChars_eq_amended :
    parseSSEEventChars = parseSSEEventCharsAmended := by
  funext ev
  unfold parseSSEEventChars parseSSEEventCharsAmended
  rw [dataLines_filterMap_eq]

/-- C7 counterexample: the event `data:  x` (two spaces after the colon):
the code strips all whitespace after the tag and hands `x` to the JSON
decoder, while the claim's single-space stripping would hand ` x`. -/
theorem c7_counterexample :
    parseSSEBufferChars "data:  x\n\n".data = ["x".data] ∧
    parseSSEBufferCharsClaim "data:  x\n\n".data = [" x".data] ∧
    parseSSEBufferChars "data:  x\n\n".data ≠
      parseSSEBufferCharsClaim "data:  x\n\n".data :=
  ⟨by decide, by decide, by decide⟩

/-- C7 amended: for every SSE input, each line beginning with `data:`
contributes its payload with the leading `data:` and ALL following
whitespace stripped, empty remainders are discarded, and the remaining
payloads of the `data:` lines within the same event are joined with a
newline before JSON decoding; events are delimited by a blank line. -/
theorem c7_amended_sse_parse (input : List Char) :
    parseSSEBufferChars input = parseSSEBufferCharsAmended input := by
  unfold parseSSEBufferChars parseSSEBufferCharsAmended
  rw [parseSSEEventChars_eq_amended]

/-- C9: the stream loop's session filter discards an event only when the
event carries a non-empty sessionID — in its properties or in its
properties.part — that differs from the current sub-agent session; an
event carrying no sessionID in either place passes the filter. -/
theorem c9_session_filter (cur : String) (e : SSEEvent) :
    (sessionFilterSkips cur e = true →
      ∃ s, s ≠ "" ∧ s ≠ cur ∧
        (e.sessionID = some s ∨ e.part.bind PartData.sessionID = some s)) ∧
    (e.sessionID = none → e.part.bind PartData.sessionID = none →
      sessionFilterSkips cur e = false) := by
  constructor
  · intro h
    unfold sessionFilterSkips at h
    rcases he : e.sessionID with _ | s
    · rcases hb : e.part.bind PartData.sessionID with _ | t
      · rw [he, hb] at h
        simp [pyOrOpt, truthyOpt] at h
      · rw [he, hb] at h
        simp [pyOrOpt, truthyOpt] at h
        exact ⟨t, h.1, h.2, Or.inr rfl⟩
    · by_cases hs : s = ""
      · subst hs
        rcases hb : e.part.bind PartData.sessionID with _ | t
        · rw [he, hb] at h
          simp [pyOrOpt, truthyOpt] at h
        · rw [he, hb] at h
          simp [pyOrOpt, truthyOpt] at h
          exact ⟨t, h.1, h.2, Or.inr rfl⟩
      · rw [he] at h
        simp [pyOrOpt, truthyOpt, hs] at h
        exact ⟨s, hs, h, Or.inl rfl⟩
  · intro h1 h2
    unfold sessionFilterSkips
    rw [h1, h2]
    rfl

/-- C9 witness: a `session.error` event for a different session is
discarded (and indeed carries a differing sessionID), while a part update
carrying no sessionID anywhere passes the filter. -/
theorem c9_witness :
    (∃ s, s ≠ "" ∧ s ≠ "ses1" ∧
      ((sessionErrorEvent "other" "x").sessionID = some s ∨
        (sessionErrorEvent "other" "x").part.bind PartData.sessionID =
          some s)) ∧
    sessionFilterSkips "ses1" (textUpdateEvent "p1" "hi") = false :=
  ⟨(c9_session_filter "ses1" (sessionErrorEvent "other" "x")).1 (by decide),
    (c9_session_filter "ses1" (textUpdateEvent "p1" "hi")).2 rfl rfl⟩

/-- Folding a step function that only appends to the output component can
start from an empty output and prepend it afterwards. -/
theorem foldl_out_shift {σ β γ : Type} (f : σ × List β → γ → σ × List β)
    (hf : ∀ s o x, f (s, o) x = ((f (s, []) x).1, o ++ (f (s, []) x).2)) :
    ∀ (xs : List γ) (s : σ) (o : List β),
      xs.foldl f (s, o) = ((xs.foldl f (s, [])).1, o ++ (xs.foldl f (s, [])).2) := by
  intro xs
  induction xs with
  | nil => intro s o; simp
  | cons x xs ih =>
    intro s o
    simp only [List.foldl_cons]
    rw [hf s o x, ih]
    conv_rhs =>
      rw [show f (s, []) x = ((f (s, []) x).1, (f (s, []) x).2) from rfl,
        ih (f (s, []) x).1 (f (s, []) x).2]
    simp [List.append_assoc]

/-- The helper `reconcilePart` only appends to the output. -/
theorem reconcilePart_out (mid : String) (cum : List (String × String))
    (out : List (Option String × BridgeEvent)) (p : FinalPart) :
    reconcilePart mid (cum, out) p =
      ((reconcilePart mid (cum, []) p).1,
        out ++ (reconcilePart mid (cum, []) p).2) := by
  unfold reconcilePart
  by_cases h : p.type = "text"
  · by_cases h2 : (lookupCum cum p.id).length < p.text.length
    · simp [h, h2]
    · simp [h, h2]
  · simp [h]

/-- The part scan of one matched message equals the claim's part scan. -/
theorem reconcileParts_eq_claim (mid : String) (parts : List FinalPart) :
    ∀ cum, parts.foldl (reconcilePart mid) (cum, []) =
      reconClaimParts mid cum parts := by
  induction parts with
  | nil => intro cum; rfl
  | cons p parts ih =>
    intro cum
    simp only [List.foldl_cons, reconClaimParts]
    by_cases h : p.type = "text"
    · by_cases h2 : (lookupCum cum p.id).length < p.text.length
      · have hr : reconcilePart mid (cum, []) p =
            ((p.id, p.text) :: cum, [(some p.id, .token p.text mid)]) := by
          simp [reconcilePart, h, h2]
        rw [hr, foldl_out_shift (reconcilePart mid) (reconcilePart_out mid),
          ih, if_pos ⟨h, h2⟩]
        simp
      · have hr : reconcilePart mid (cum, []) p = (cum, []) := by
          simp [reconcilePart, h, h2]
        rw [hr, ih, if_neg]
        simp [h2]
    · have hr : reconcilePart mid (cum, []) p = (cum, []) := by
        simp [reconcilePart, h]
      rw [hr, ih, if_neg]
      simp [h]

/-- The helper `reconcileMessage` only appends to the output. -/
theorem reconcileMessage_out (mid ourId : String) (tracked : List String)
    (cum : List (String × String))
    (out : List (Option String × BridgeEvent)) (msg : OCMessage) :
    reconcileMessage mid ourId tracked (cum, out) msg =
      ((reconcileMessage mid ourId tracked (cum, []) msg).1,
        out ++ (reconcileMessage mid ourId tracked (cum, []) msg).2) := by
  unfold reconcileMessage
  by_cases h1 : msg.role ≠ "assistant"
  · simp [h1]
  · by_cases h2 : ¬ (msg.parentID = ourId) ∧ ¬ (tracked ≠ [] ∧ msg.id ∈ tracked)
    · simp only [if_neg h1, if_pos h2]
      simp
    · simp only [if_neg h1, if_neg h2]
      exact foldl_out_shift (reconcilePart mid) (reconcilePart_out mid)
        msg.parts cum out

/-- The tracked-set fallback guard of the source (`tracked_msg_ids and
msg_id in tracked_msg_ids`) is plain membership. -/
theorem tracked_guard (tracked : List String) (m : String) :
    (tracked ≠ [] ∧ m ∈ tracked) ↔ m ∈ tracked := by
  constructor
  · exact And.right
  · intro h
    refine ⟨?_, h⟩
    rintro rfl
    exact absurd h (List.not_mem_nil m)

/-- The final reconciliation scan equals the claim-style recursive
description. -/
theorem fetchFinal_eq_reconClaim (mid ourId : String)
    (cum : List (String × String)) (tracked : List String)
    (messages : List OCMessage) :
    fetchFinalMessageState mid ourId cum tracked messages =
      reconClaim mid ourId tracked cum messages := by
  unfold fetchFinalMessageState
  induction messages generalizing cum with
  | nil => rfl
  | cons msg rest ih =>
    simp only [List.foldl_cons, reconClaim]
    by_cases hrole : msg.role = "assistant"
    · by_cases hmatch : msg.parentID = ourId ∨ msg.id ∈ tracked
      · have hm : reconcileMessage mid ourId tracked (cum, []) msg =
            reconClaimParts mid cum msg.parts := by
          unfold reconcileMessage
          rw [if_neg (by simp [hrole]), if_neg, reconcileParts_eq_claim]
          rcases hmatch with hp | ht
          · simp [hp]
          · intro hcon
            exact hcon.2 ((tracked_guard tracked msg.id).mpr ht)
        rw [hm, if_pos ⟨hrole, hmatch⟩,
          foldl_out_shift (reconcileMessage mid ourId tracked)
            (reconcileMessage_out mid ourId tracked) rest, ih]
      · have hm : reconcileMessage mid ourId tracked (cum, []) msg =
            (cum, []) := by
          unfold reconcileMessage
          rw [if_neg (by simp [hrole]), if_pos]
          constructor
          · intro hp
            exact hmatch (Or.inl hp)
          · intro ht
            exact hmatch (Or.inr ((tracked_guard tracked msg.id).mp ht))
        rw [hm, if_neg (by rintro ⟨-, h⟩; exact hmatch h), ih]
    · have hm : reconcileMessage mid ourId tracked (cum, []) msg =
          (cum, []) := by
        unfold reconcileMessage
        rw [if_pos hrole]
      rw [hm, if_neg (by rintro ⟨h, -⟩; exact hrole h), ih]

/-- C5: the final reconciliation scan equals the claim's description: for
every returned assistant message whose `parentID` equals `ourAscendingId` or
whose id is in `trackedAssistantIds`, every text part whose full text is
strictly longer than the previously emitted cumulative value updates the
cumulative value and emits one new token carrying the full text, and text
parts whose full text is not longer produce no token event. -/
theorem c5_final_reconciliation (mid ourId : String)
    (cum : List (String × String)) (tracked : List String)
    (messages : List OCMessage) :
    fetchFinalMessageState mid ourId cum tracked messages =
      reconClaim mid ourId tracked cum messages :=
  fetchFinal_eq_reconClaim mid ourId cum tracked messages

/-- Appending a common prefix preserves strict lexicographic order. -/
theorem strLtbAppendLeft (l : List Char) {xs ys : List Char}
    (h : listStrLtb xs ys = true) :
    listStrLtb (l ++ xs) (l ++ ys) = true := by
  induction l with
  | nil => exact h
  | cons c l ih =>
    simp only [List.cons_append, listStrLtb, if_neg (lt_irrefl c)]
    exact ih

/-- Two lists of equal length in strict lexicographic order stay so under
arbitrary suffixes: the order is decided strictly before either end. -/
theorem strLtbAppendOfEqLen : ∀ xs ys : List Char,
    xs.length = ys.length → listStrLtb xs ys = true →
    ∀ s1 s2 : List Char, listStrLtb (xs ++ s1) (ys ++ s2) = true := by
  intro xs
  induction xs with
  | nil =>
    intro ys hlen h s1 s2
    cases ys with
    | nil => simp [listStrLtb] at h
    | cons d ds => simp at hlen
  | cons c cs ih =>
    intro ys hlen h s1 s2
    cases ys with
    | nil => simp at hlen
    | cons d ds =>
      simp only [listStrLtb] at h
      simp only [List.cons_append, listStrLtb]
      by_cases h1 : c < d
      · rw [if_pos h1]
      · rw [if_neg h1] at h ⊢
        by_cases h2 : d < c
        · rw [if_pos h2] at h
          exact absurd h (by simp)
        · rw [if_neg h2] at h ⊢
          exact ih ds (by simpa using hlen) h s1 s2

/-- The lowercase hex digit characters are strictly increasing in the digit
value. -/
theorem hexDigitCharMono : ∀ a : Nat, a < 16 → ∀ b : Nat, b < 16 →
    a < b → hexDigitChar a < hexDigitChar b := by decide

/-- The list `hexDigits k n` has exactly `k` characters. -/
theorem hexDigits_length : ∀ k n : Nat, (hexDigits k n).length = k := by
  intro k
  induction k with
  | zero => intro n; rfl
  | succ k ih => intro n; simp [hexDigits, ih]

/-- Fixed-width hex strings compare like the numbers they encode. -/
theorem hexDigitsMono : ∀ k a b : Nat, a < b → b < 16 ^ k →
    listStrLtb (hexDigits k a) (hexDigits k b) = true := by
  intro k
  induction k with
  | zero =>
    intro a b hab hb
    rw [pow_zero] at hb
    exact absurd hab (by omega)
  | succ k ih =>
    intro a b hab hb
    simp only [hexDigits, listStrLtb]
    have hda : a / 16 ^ k ≤ b / 16 ^ k := Nat.div_le_div_right (le_of_lt hab)
    have hdb : b / 16 ^ k < 16 := by
      rw [Nat.div_lt_iff_lt_mul (pow_pos (by norm_num : (0 : Nat) < 16) k)]
      calc b < 16 ^ (k + 1) := hb
        _ = 16 * 16 ^ k := by ring
    rcases Nat.lt_or_ge (a / 16 ^ k) (b / 16 ^ k) with hlt | hge
    · rw [if_pos (hexDigitCharMono _ (lt_of_le_of_lt hda hdb) _ hdb hlt)]
    · have heq : a / 16 ^ k = b / 16 ^ k := le_antisymm hda hge
      have hmlt : a % 16 ^ k < b % 16 ^ k := by
        have h1 := Nat.div_add_mod a (16 ^ k)
        have h2 := Nat.div_add_mod b (16 ^ k)
        rw [heq] at h1
        omega
      have hmb : b % 16 ^ k < 16 ^ k :=
        Nat.mod_lt _ (pow_pos (by norm_num : (0 : Nat) < 16) k)
      rw [heq, if_neg (lt_irrefl _), if_neg (lt_irrefl _)]
      exact ih _ _ hmlt hmb

/-- A strictly larger 48-bit encoded value gives a strictly
lexicographically larger ID, for any prefix and any random suffixes. -/
theorem idCharsLt (pre : String) {s1 s2 : IdState}
    (h : encoded48 s1 < encoded48 s2) (suf1 suf2 : List Char) :
    listStrLtb (idChars pre s1 suf1) (idChars pre s2 suf2) = true := by
  have hb : encoded48 s2 < 16 ^ 12 := by
    have h2 : encoded48 s2 < 2 ^ 48 := Nat.mod_lt _ (by norm_num)
    calc encoded48 s2 < 2 ^ 48 := h2
      _ = 16 ^ 12 := by norm_num
  have hhex := hexDigitsMono 12 _ _ h hb
  have hlen : (hexDigits 12 (encoded48 s1)).length =
      (hexDigits 12 (encoded48 s2)).length := by
    rw [hexDigits_length, hexDigits_length]
  have happ := strLtbAppendOfEqLen _ _ hlen hhex suf1 suf2
  have hfull := strLtbAppendLeft (pre.data ++ ['_']) happ
  unfold idChars
  simpa [List.append_assoc] using hfull

/-- After a call, `_last_timestamp` equals the clock value read. -/
theorem ascendingStep_last (s : IdState) (t : Nat) :
    (ascendingStep s t).last = t := by
  by_cases h : t = s.last
  · simp [ascendingStep, h]
  · simp [ascendingStep, h]

/-- One call strictly increases the untruncated encoded value, given a
non-decreasing clock and fewer than 4096 calls in the current
millisecond. -/
theorem rawEncoded_step_lt (s : IdState) (t : Nat) (hle : s.last ≤ t)
    (hc : s.counter ≤ 4095) :
    rawEncoded s < rawEncoded (ascendingStep s t) := by
  have hstep : ascendingStep s t =
      if t = s.last then IdState.mk s.last (s.counter + 1)
      else IdState.mk t 1 := by
    unfold ascendingStep
    by_cases h : t = s.last
    · simp [h]
    · simp [h]
  rw [hstep]
  by_cases h : t = s.last
  · rw [if_pos h]
    show s.last * 4096 + s.counter < s.last * 4096 + (s.counter + 1)
    omega
  · rw [if_neg h]
    show s.last * 4096 + s.counter < t * 4096 + 1
    have hlt : s.last < t := lt_of_le_of_ne hle fun he => h he.symm
    omega

/-- Every state later in the run has a strictly larger untruncated encoded
value than the state entering the run. -/
theorem genStates_gtAll : ∀ (ts : List Nat) (s : IdState),
    List.Chain (· ≤ ·) s.last ts → s.counter ≤ 4095 →
    (∀ x ∈ genStates s ts, x.counter ≤ 4095) →
    ∀ b ∈ genStates s ts, rawEncoded s < rawEncoded b := by
  intro ts
  induction ts with
  | nil =>
    intro s _ _ _ b hb
    simp [genStates] at hb
  | cons t ts ih =>
    intro s hchain hc hcs b hb
    cases hchain with
    | cons hle hchain' =>
      simp only [genStates] at hb
      rcases List.mem_cons.mp hb with rfl | hb'
      · exact rawEncoded_step_lt s t hle hc
      · have h1 : rawEncoded s < rawEncoded (ascendingStep s t) :=
          rawEncoded_step_lt s t hle hc
        have hmem : ascendingStep s t ∈ genStates s (t :: ts) := by
          simp only [genStates]
          exact List.mem_cons_self _ _
        have hmem2 : ∀ x ∈ genStates (ascendingStep s t) ts,
            x ∈ genStates s (t :: ts) := by
          intro x hx
          simp only [genStates]
          exact List.mem_cons_of_mem _ hx
        have h2 := ih (ascendingStep s t) (by rwa [ascendingStep_last])
          (hcs _ hmem) (fun x hx => hcs x (hmem2 x hx)) b hb'
        exact lt_trans h1 h2

/-- The untruncated encoded values are strictly increasing along the run. -/
theorem genStates_pairwise : ∀ (ts : List Nat) (s : IdState),
    List.Chain (· ≤ ·) s.last ts → s.counter ≤ 4095 →
    (∀ x ∈ genStates s ts, x.counter ≤ 4095) →
    List.Pairwise (fun a b => rawEncoded a < rawEncoded b) (genStates s ts) := by
  intro ts
  induction ts with
  | nil => intro s _ _ _; simp [genStates]
  | cons t ts ih =>
    intro s hchain hc hcs
    cases hchain with
    | cons hle hchain' =>
      have hmem : ascendingStep s t ∈ genStates s (t :: ts) := by
        simp only [genStates]
        exact List.mem_cons_self _ _
      have hmem' : ∀ x ∈ genStates (ascendingStep s t) ts,
          x ∈ genStates s (t :: ts) := by
        intro x hx
        simp only [genStates]
        exact List.mem_cons_of_mem _ hx
      simp only [genStates]
      refine List.Pairwise.cons ?_ ?_
      · exact genStates_gtAll ts (ascendingStep s t)
          (by rwa [ascendingStep_last]) (hcs _ hmem)
          (fun x hx => hcs x (hmem' x hx))
      · exact ih (ascendingStep s t) (by rwa [ascendingStep_last])
          (hcs _ hmem) (fun x hx => hcs x (hmem' x hx))

/-- Python's strict order on generated ID strings is the strict
lexicographic comparison of their characters. -/
theorem idString_lt_iff (pre : String) (s1 s2 : IdState)
    (suf1 suf2 : List Char) :
    pyStrLt (idString pre s1 suf1) (idString pre s2 suf2) ↔
      listStrLtb (idChars pre s1 suf1) (idChars pre s2 suf2) = true :=
  Iff.rfl

/-- C2 counterexample: two calls one millisecond apart (at the wall-clock
milliseconds 1786706395135 and 1786706395136, i.e. around 2026-08-14), each
the only call in its millisecond, produce NON-increasing IDs: the 48-bit
truncation of `timestamp * 0x1000 + counter` wraps between the calls
(`msg_fffffffff001…`, then `msg_000000000001…`), whatever the random
suffixes are. -/
theorem c2_counterexample :
    (∀ x ∈ genStates ⟨0, 0⟩ [1786706395135, 1786706395136],
      x.counter ≤ 4095) ∧
    List.Chain (· ≤ ·) (IdState.mk 0 0).last [1786706395135, 1786706395136] ∧
    ¬ pyStrLt
        (idString "msg"
          ((genStates ⟨0, 0⟩ [1786706395135, 1786706395136]).get
            ⟨0, by decide⟩) (List.replicate 14 'z'))
        (idString "msg"
          ((genStates ⟨0, 0⟩ [1786706395135, 1786706395136]).get
            ⟨1, by decide⟩) (List.replicate 14 '0')) := by
  refine ⟨by decide,
    List.Chain.cons (Nat.zero_le _)
      (List.Chain.cons (by norm_num) List.Chain.nil), ?_⟩
  rw [idString_lt_iff]
  decide

/-- C2 amended: within one process, the IDs of two calls `a` before `b` are
strictly lexicographically increasing — for the same prefix, regardless of
the random base62 suffixes and of clock quantization — provided the clock
readings are non-decreasing, fewer than 4096 calls fall in each millisecond,
and the 48-bit truncation does not wrap between the two calls, i.e. the
values `timestamp * 0x1000 + counter` of call `a` and call `b` lie in the
same `2 ^ 48` epoch (have the same quotient by `2 ^ 48`). -/
theorem c2_amended_ascending_monotone (s0 : IdState) (ts : List Nat)
    (hchain : List.Chain (· ≤ ·) s0.last ts)
    (hc0 : s0.counter ≤ 4095)
    (hcs : ∀ x ∈ genStates s0 ts, x.counter ≤ 4095)
    (pre : String) (suf1 suf2 : List Char)
    (i j : Fin (genStates s0 ts).length) (hij : i < j)
    (hepoch : rawEncoded ((genStates s0 ts).get i) / 2 ^ 48 =
      rawEncoded ((genStates s0 ts).get j) / 2 ^ 48) :
    pyStrLt (idString pre ((genStates s0 ts).get i) suf1)
      (idString pre ((genStates s0 ts).get j) suf2) := by
  have hp := genStates_pairwise ts s0 hchain hc0 hcs
  have hraw := (List.pairwise_iff_get.mp hp) i j hij
  have henc : encoded48 ((genStates s0 ts).get i) <
      encoded48 ((genStates s0 ts).get j) := by
    unfold encoded48
    have h1 := Nat.div_add_mod (rawEncoded ((genStates s0 ts).get i)) (2 ^ 48)
    have h2 := Nat.div_add_mod (rawEncoded ((genStates s0 ts).get j)) (2 ^ 48)
    rw [hepoch] at h1
    omega
  rw [idString_lt_iff]
  exact idCharsLt pre henc suf1 suf2

/-- C2 witness: three calls at realistic wall-clock milliseconds (around
2025-10-09), two in the same millisecond, from the initial generator state;
the first and third IDs are strictly increasing even with adversarial
suffixes.  The truncated encodings lie in the same `2 ^ 48` epoch, as they
do whenever the process does not straddle one of the 2.18-year wrap
instants. -/
theorem c2_witness :
    pyStrLt
      (idString "msg"
        ((genStates ⟨0, 0⟩
          [1760000000000, 1760000000000, 1760000000001]).get ⟨0, by decide⟩)
        ['z', 'z'])
      (idString "msg"
        ((genStates ⟨0, 0⟩
          [1760000000000, 1760000000000, 1760000000001]).get ⟨2, by decide⟩)
        ['0']) :=
  c2_amended_ascending_monotone ⟨0, 0⟩
    [1760000000000, 1760000000000, 1760000000001]
    (List.Chain.cons (Nat.zero_le _)
      (List.Chain.cons (le_refl _)
        (List.Chain.cons (by norm_num) List.Chain.nil)))
    (by decide) (by decide) "msg" ['z', 'z'] ['0'] ⟨0, by decide⟩
    ⟨2, by decide⟩ (by decide) (by decide)

@[simp]
theorem lookupCum_cons_self (k v : String) (m : List (String × String)) :
    lookupCum ((k, v) :: m) k = v := by
  simp [lookupCum, List.find?]

theorem lookupCum_cons_ne {k p : String} (v : String)
    (m : List (String × String)) (h : k ≠ p) :
    lookupCum ((k, v) :: m) p = lookupCum m p := by
  have hb : (k == p) = false := beq_eq_false_iff_ne.mpr h
  simp [lookupCum, List.find?, hb]

@[simp]
theorem tokenContents_nil (p : String) :
    tokenContentsForPart p [] = [] := rfl

@[simp]
theorem tokenContents_cons_none (p : String) (ev : BridgeEvent)
    (l : List (Option String × BridgeEvent)) :
    tokenContentsForPart p ((none, ev) :: l) = tokenContentsForPart p l := by
  cases ev <;> rfl

theorem tokenContents_cons_some_token (p q c m : String)
    (l : List (Option String × BridgeEvent)) :
    tokenContentsForPart p ((some q, .token c m) :: l) =
      if q = p then c :: tokenContentsForPart p l
      else tokenContentsForPart p l := by
  by_cases h : q = p
  · simp [tokenContentsForPart, List.filterMap_cons, h]
  · simp [tokenContentsForPart, List.filterMap_cons, h]

@[simp]
theorem tokenContents_append (p : String)
    (l1 l2 : List (Option String × BridgeEvent)) :
    tokenContentsForPart p (l1 ++ l2) =
      tokenContentsForPart p l1 ++ tokenContentsForPart p l2 := by
  simp [tokenContentsForPart, List.filterMap_append]

theorem tokenContents_eq_nil_of_tags_none (p : String)
    (l : List (Option String × BridgeEvent))
    (h : ∀ x ∈ l, x.1 = (none : Option String)) :
    tokenContentsForPart p l = [] := by
  induction l with
  | nil => rfl
  | cons x l ih =>
    rcases x with ⟨tag, ev⟩
    have htag : tag = none := h _ (List.mem_cons_self _ _)
    subst htag
    rw [tokenContents_cons_none]
    exact ih fun y hy => h y (List.mem_cons_of_mem _ hy)

/-- The transform `_transform_part_to_event` never produces an `execution_complete`
frame. -/
theorem transformPartToEvent_no_exec (part : PartData) (mid : String)
    {ev : BridgeEvent} (h : transformPartToEvent part mid = some ev) :
    isExecutionComplete ev = false := by
  unfold transformPartToEvent at h
  split_ifs at h <;>
    first
      | exact Option.noConfusion h
      | (injection h with h1; rw [← h1]; rfl)

/-- Equation form of the text branch. -/
theorem applyTextPart_eq (st : PromptState) (partId text : String)
    (delta : Option String) (mid : String) {st' : PromptState}
    {out : List (Option String × BridgeEvent)} {sig : Option StreamSignal}
    (h : applyTextPart st partId text delta mid = (st', out, sig)) :
    st' = { st with
        cumulative := (partId, newTextValue st partId text delta) ::
          st.cumulative } ∧
    sig = none ∧
    out = (if newTextValue st partId text delta ≠ "" then
      [(some partId, .token (newTextValue st partId text delta) mid)]
      else []) := by
  unfold applyTextPart at h
  split_ifs at h with hnv
  · injection h with h1 h23
    injection h23 with h2 h3
    exact ⟨h1.symm, h3.symm, by rw [if_pos hnv]; exact h2.symm⟩
  · injection h with h1 h23
    injection h23 with h2 h3
    exact ⟨h1.symm, h3.symm, by rw [if_neg hnv]; exact h2.symm⟩

/-- Equation form of the tool branch: the cumulative text is untouched, no
signal is raised, and every emission is untagged and is not an
`execution_complete` frame. -/
theorem applyToolPart_eq (st : PromptState) (part : PartData) (mid : String)
    {st' : PromptState} {out : List (Option String × BridgeEvent)}
    {sig : Option StreamSignal}
    (h : applyToolPart st part mid = (st', out, sig)) :
    st'.cumulative = st.cumulative ∧ sig = none ∧
    ∀ x ∈ out, x.1 = (none : Option String) ∧
      isExecutionComplete x.2 = false := by
  unfold applyToolPart at h
  rcases htr : transformPartToEvent part mid with _ | ev
  · rw [htr] at h
    injection h with h1 h23
    injection h23 with h2 h3
    rw [← h1, ← h2]
    exact ⟨rfl, h3.symm, by simp⟩
  · rw [htr] at h
    split_ifs at h with hk
    · injection h with h1 h23
      injection h23 with h2 h3
      rw [← h1, ← h2]
      exact ⟨rfl, h3.symm, by simp⟩
    · injection h with h1 h23
      injection h23 with h2 h3
      rw [← h1, ← h2]
      refine ⟨rfl, h3.symm, ?_⟩
      intro x hx
      rcases List.mem_singleton.mp hx with rfl
      exact ⟨rfl, transformPartToEvent_no_exec part mid htr⟩

/-- When the text branch is taken with a falsy delta, `shrinkCheck` bounds
the current accumulated text by the replacement text. -/
theorem shrinkCheck_text (cur : String) (st : PromptState) (e : SSEEvent)
    (hty : e.type = "message.part.updated")
    (hfl : sessionFilterSkips cur e = false)
    (hgate : ¬ (st.tracked ≠ [] ∧ (e.part.getD {}).messageID ∉ st.tracked))
    (htext : (e.part.getD {}).type = "text")
    (hdelta : e.delta = none ∨ e.delta = some "")
    (hsh : shrinkCheck cur st e = true) :
    (lookupCum st.cumulative (e.part.getD {}).id).length ≤
      (e.part.getD {}).text.length := by
  unfold shrinkCheck textReplaceTarget at hsh
  rw [if_pos ⟨hty, hfl⟩, if_neg hgate, if_pos ⟨htext, hdelta⟩] at hsh
  exact of_decide_eq_true hsh

theorem triple_eq {α β γ : Type} {a a' : α} {b b' : β} {c c' : γ}
    (h : (a, b, c) = (a', b', c')) : a = a' ∧ b = b' ∧ c = c' := by
  injection h with h1 h23
  injection h23 with h2 h3
  exact ⟨h1, h2, h3⟩

/-- Case enumeration of one iteration of the stream loop. -/
theorem processEvent_master (cur ourId mid : String) (st : PromptState)
    (e : SSEEvent) {st' : PromptState}
    {out : List (Option String × BridgeEvent)} {sig : Option StreamSignal}
    (hpe : processEvent cur ourId mid st e = (st', out, sig)) :
    (st'.cumulative = st.cumulative ∧ out = [] ∧ sig = none) ∨
    (e.type = "message.part.updated" ∧ sessionFilterSkips cur e = false ∧
      ¬ (st.tracked ≠ [] ∧ (e.part.getD {}).messageID ∉ st.tracked) ∧
      (e.part.getD {}).type = "text" ∧
      applyTextPart st (e.part.getD {}).id (e.part.getD {}).text e.delta
        mid = (st', out, sig)) ∨
    (applyToolPart st (e.part.getD {}) mid = (st', out, sig)) ∨
    (st' = st ∧ out = [(none, .stepStart mid)] ∧ sig = none) ∨
    (st' = st ∧ out = [(none, .stepFinish (e.part.getD {}).cost
      (e.part.getD {}).tokens (e.part.getD {}).reason mid)] ∧ sig = none) ∨
    (st' = st ∧ out = [] ∧ sig = some .idle) ∨
    (st' = st ∧
      out = [(none, .errorEv (errorMessageOf e.errorMessage) mid)] ∧
      sig = some .errored) := by
  unfold processEvent at hpe
  by_cases h1 : e.type = "server.connected"
  · rw [if_pos h1] at hpe
    obtain ⟨ha, hb, hc⟩ := triple_eq hpe
    exact Or.inl ⟨by rw [← ha], hb.symm, hc.symm⟩
  rw [if_neg h1] at hpe
  by_cases h2 : e.type = "server.heartbeat"
  · rw [if_pos h2] at hpe
    obtain ⟨ha, hb, hc⟩ := triple_eq hpe
    exact Or.inl ⟨by rw [← ha], hb.symm, hc.symm⟩
  rw [if_neg h2] at hpe
  by_cases h3 : sessionFilterSkips cur e = true
  · rw [if_pos h3] at hpe
    obtain ⟨ha, hb, hc⟩ := triple_eq hpe
    exact Or.inl ⟨by rw [← ha], hb.symm, hc.symm⟩
  rw [if_neg h3] at hpe
  by_cases h4 : e.type = "message.updated"
  · rw [if_pos h4] at hpe
    by_cases h5 : (e.info.getD {}).sessionID = some cur ∧
        (e.info.getD {}).role = "assistant" ∧
        (e.info.getD {}).parentID = ourId ∧ (e.info.getD {}).id ≠ ""
    · rw [if_pos h5] at hpe
      obtain ⟨ha, hb, hc⟩ := triple_eq hpe
      exact Or.inl ⟨by rw [← ha], hb.symm, hc.symm⟩
    · rw [if_neg h5] at hpe
      obtain ⟨ha, hb, hc⟩ := triple_eq hpe
      exact Or.inl ⟨by rw [← ha], hb.symm, hc.symm⟩
  rw [if_neg h4] at hpe
  by_cases h6 : e.type = "message.part.updated"
  · rw [if_pos h6] at hpe
    by_cases h7 : st.tracked ≠ [] ∧ (e.part.getD {}).messageID ∉ st.tracked
    · rw [if_pos h7] at hpe
      obtain ⟨ha, hb, hc⟩ := triple_eq hpe
      exact Or.inl ⟨by rw [← ha], hb.symm, hc.symm⟩
    rw [if_neg h7] at hpe
    by_cases h8 : (e.part.getD {}).type = "text"
    · rw [if_pos h8] at hpe
      exact Or.inr (Or.inl ⟨h6, Bool.eq_false_iff.mpr h3, h7, h8, hpe⟩)
    rw [if_neg h8] at hpe
    by_cases h9 : (e.part.getD {}).type = "tool"
    · rw [if_pos h9] at hpe
      exact Or.inr (Or.inr (Or.inl hpe))
    rw [if_neg h9] at hpe
    by_cases h10 : (e.part.getD {}).type = "step-start"
    · rw [if_pos h10] at hpe
      obtain ⟨ha, hb, hc⟩ := triple_eq hpe
      exact Or.inr (Or.inr (Or.inr (Or.inl ⟨ha.symm, hb.symm, hc.symm⟩)))
    rw [if_neg h10] at hpe
    by_cases h11 : (e.part.getD {}).type = "step-finish"
    · rw [if_pos h11] at hpe
      obtain ⟨ha, hb, hc⟩ := triple_eq hpe
      exact Or.inr (Or.inr (Or.inr (Or.inr (Or.inl
        ⟨ha.symm, hb.symm, hc.symm⟩))))
    rw [if_neg h11] at hpe
    obtain ⟨ha, hb, hc⟩ := triple_eq hpe
    exact Or.inl ⟨by rw [← ha], hb.symm, hc.symm⟩
  rw [if_neg h6] at hpe
  by_cases h12 : e.type = "session.idle"
  · rw [if_pos h12] at hpe
    by_cases h13 : e.sessionID = some cur
    · rw [if_pos h13] at hpe
      obtain ⟨ha, hb, hc⟩ := triple_eq hpe
      exact Or.inr (Or.inr (Or.inr (Or.inr (Or.inr (Or.inl
        ⟨ha.symm, hb.symm, hc.symm⟩)))))
    · rw [if_neg h13] at hpe
      obtain ⟨ha, hb, hc⟩ := triple_eq hpe
      exact Or.inl ⟨by rw [← ha], hb.symm, hc.symm⟩
  rw [if_neg h12] at hpe
  by_cases h14 : e.type = "session.status"
  · rw [if_pos h14] at hpe
    by_cases h15 : e.sessionID = some cur ∧ e.statusType = some "idle"
    · rw [if_pos h15] at hpe
      obtain ⟨ha, hb, hc⟩ := triple_eq hpe
      exact Or.inr (Or.inr (Or.inr (Or.inr (Or.inr (Or.inl
        ⟨ha.symm, hb.symm, hc.symm⟩)))))
    · rw [if_neg h15] at hpe
      obtain ⟨ha, hb, hc⟩ := triple_eq hpe
      exact Or.inl ⟨by rw [← ha], hb.symm, hc.symm⟩
  rw [if_neg h14] at hpe
  by_cases h16 : e.type = "session.error"
  · rw [if_pos h16] at hpe
    by_cases h17 : e.sessionID = some cur
    · rw [if_pos h17] at hpe
      obtain ⟨ha, hb, hc⟩ := triple_eq hpe
      exact Or.inr (Or.inr (Or.inr (Or.inr (Or.inr (Or.inr
        ⟨ha.symm, hb.symm, hc.symm⟩)))))
    · rw [if_neg h17] at hpe
      obtain ⟨ha, hb, hc⟩ := triple_eq hpe
      exact Or.inl ⟨by rw [← ha], hb.symm, hc.symm⟩
  rw [if_neg h16] at hpe
  obtain ⟨ha, hb, hc⟩ := triple_eq hpe
  exact Or.inl ⟨by rw [← ha], hb.symm, hc.symm⟩

/-- Any single step: the token events among the emissions are exactly zero
or one, the one carrying the part's updated accumulated text; and no step
emits an `execution_complete` frame. -/
theorem processEvent_out_shape (cur ourId mid : String) (st : PromptState)
    (e : SSEEvent) {st' : PromptState}
    {out : List (Option String × BridgeEvent)} {sig : Option StreamSignal}
    (hpe : processEvent cur ourId mid st e = (st', out, sig)) (p : String) :
    (tokenContentsForPart p out = [] ∨
      tokenContentsForPart p out = [lookupCum st'.cumulative p]) ∧
    ∀ x ∈ out, isExecutionComplete x.2 = false := by
  rcases processEvent_master cur ourId mid st e hpe with
    ⟨-, hb, -⟩ | ⟨-, -, -, -, ht⟩ | ht | ⟨-, hb, -⟩ | ⟨-, hb, -⟩ |
    ⟨-, hb, -⟩ | ⟨-, hb, -⟩
  · subst hb
    exact ⟨Or.inl rfl, by simp⟩
  · obtain ⟨hst, -, hout⟩ := applyTextPart_eq _ _ _ _ _ ht
    subst hst
    rw [hout]
    by_cases hnv : newTextValue st (e.part.getD {}).id
        (e.part.getD {}).text e.delta ≠ ""
    · rw [if_pos hnv]
      by_cases hq : (e.part.getD {}).id = p
      · refine ⟨Or.inr ?_, ?_⟩
        · rw [tokenContents_cons_some_token, if_pos hq, tokenContents_nil,
            ← hq, lookupCum_cons_self]
        · intro x hx
          rcases List.mem_singleton.mp hx with rfl
          rfl
      · refine ⟨Or.inl ?_, ?_⟩
        · rw [tokenContents_cons_some_token, if_neg hq, tokenContents_nil]
        · intro x hx
          rcases List.mem_singleton.mp hx with rfl
          rfl
    · rw [if_neg hnv]
      exact ⟨Or.inl rfl, by simp⟩
  · obtain ⟨-, -, hall⟩ := applyToolPart_eq _ _ _ ht
    exact ⟨Or.inl (tokenContents_eq_nil_of_tags_none _ _
        fun x hx => (hall x hx).1),
      fun x hx => (hall x hx).2⟩
  · subst hb
    exact ⟨Or.inl (by simp), by simp [isExecutionComplete]⟩
  · subst hb
    exact ⟨Or.inl (by simp), by simp [isExecutionComplete]⟩
  · subst hb
    exact ⟨Or.inl rfl, by simp⟩
  · subst hb
    exact ⟨Or.inl (by simp), by simp [isExecutionComplete]⟩

/-- Any single step only grows the accumulated text of every part, provided
the step passes `shrinkCheck`. -/
theorem processEvent_cum_mono (cur ourId mid : String) (st : PromptState)
    (e : SSEEvent) {st' : PromptState}
    {out : List (Option String × BridgeEvent)} {sig : Option StreamSignal}
    (hpe : processEvent cur ourId mid st e = (st', out, sig))
    (hsh : shrinkCheck cur st e = true) (p : String) :
    (lookupCum st.cumulative p).length ≤
      (lookupCum st'.cumulative p).length := by
  rcases processEvent_master cur ourId mid st e hpe with
    ⟨ha, -, -⟩ | ⟨hc6, hc3, hc7, hc8, ht⟩ | ht | ⟨ha, -, -⟩ | ⟨ha, -, -⟩ |
    ⟨ha, -, -⟩ | ⟨ha, -, -⟩
  · rw [ha]
  · obtain ⟨hst, -, -⟩ := applyTextPart_eq _ _ _ _ _ ht
    subst hst
    by_cases hq : (e.part.getD {}).id = p
    · rw [← hq, lookupCum_cons_self]
      cases hd : e.delta with
      | some d =>
        by_cases hde : d = ""
        · subst hde
          show (lookupCum st.cumulative _).length ≤
            (newTextValue st _ _ (some "")).length
          simp only [newTextValue, ne_eq, not_true_eq_false, ite_false]
          exact shrinkCheck_text cur st e hc6 hc3 hc7 hc8 (Or.inr hd) hsh
        · show (lookupCum st.cumulative _).length ≤
            (newTextValue st _ _ (some d)).length
          simp only [newTextValue, ne_eq, hde, not_false_eq_true, ite_true]
          rw [String.length_append]
          exact Nat.le_add_right _ _
      | none =>
        show (lookupCum st.cumulative _).length ≤
          (newTextValue st _ _ none).length
        simp only [newTextValue]
        exact shrinkCheck_text cur st e hc6 hc3 hc7 hc8 (Or.inl hd) hsh
    · rw [lookupCum_cons_ne _ _ hq]
  · obtain ⟨hcum, -, -⟩ := applyToolPart_eq _ _ _ ht
    rw [hcum]
  · rw [ha]
  · rw [ha]
  · rw [ha]
  · rw [ha]

/-- The idle signal leaves the state untouched and emits nothing. -/
theorem processEvent_idle_eq (cur ourId mid : String) (st : PromptState)
    (e : SSEEvent) {st' : PromptState}
    {out : List (Option String × BridgeEvent)}
    (hpe : processEvent cur ourId mid st e = (st', out, some .idle)) :
    st' = st ∧ out = [] := by
  rcases processEvent_master cur ourId mid st e hpe with
    ⟨-, -, hc⟩ | ⟨-, -, -, -, ht⟩ | ht | ⟨-, -, hc⟩ | ⟨-, -, hc⟩ |
    ⟨ha, hb, -⟩ | ⟨-, -, hc⟩
  · exact Option.noConfusion hc
  · obtain ⟨-, hsig, -⟩ := applyTextPart_eq _ _ _ _ _ ht
    exact Option.noConfusion hsig
  · obtain ⟨-, hsig, -⟩ := applyToolPart_eq _ _ _ ht
    exact Option.noConfusion hsig
  · exact Option.noConfusion hc
  · exact Option.noConfusion hc
  · exact ⟨ha, hb⟩
  · exact StreamSignal.noConfusion (Option.some.inj hc)

/-- The session.error signal leaves the state untouched and emits exactly
the `error` event. -/
theorem processEvent_errored_eq (cur ourId mid : String) (st : PromptState)
    (e : SSEEvent) {st' : PromptState}
    {out : List (Option String × BridgeEvent)}
    (hpe : processEvent cur ourId mid st e = (st', out, some .errored)) :
    st' = st ∧
    out = [(none, .errorEv (errorMessageOf e.errorMessage) mid)] := by
  rcases processEvent_master cur ourId mid st e hpe with
    ⟨-, -, hc⟩ | ⟨-, -, -, -, ht⟩ | ht | ⟨-, -, hc⟩ | ⟨-, -, hc⟩ |
    ⟨-, -, hc⟩ | ⟨ha, hb, -⟩
  · exact Option.noConfusion hc
  · obtain ⟨-, hsig, -⟩ := applyTextPart_eq _ _ _ _ _ ht
    exact Option.noConfusion hsig
  · obtain ⟨-, hsig, -⟩ := applyToolPart_eq _ _ _ ht
    exact Option.noConfusion hsig
  · exact Option.noConfusion hc
  · exact Option.noConfusion hc
  · exact StreamSignal.noConfusion (Option.some.inj hc)
  · exact ⟨ha, hb⟩

theorem chain'_le_head {a b : Nat} {l : List Nat} (hab : a ≤ b)
    (h : List.Chain' (· ≤ ·) (b :: l)) : List.Chain' (· ≤ ·) (a :: l) := by
  cases l with
  | nil => simp
  | cons c l =>
    rw [List.chain'_cons] at h ⊢
    exact ⟨le_trans hab h.1, h.2⟩

/-- Reconciliation part scan: the emitted token lengths continue a
non-decreasing chain from the current accumulated length. -/
theorem reconClaimParts_chain (mid : String) :
    ∀ (parts : List FinalPart) (cum : List (String × String)) (p : String)
      (l : List Nat),
      List.Chain' (· ≤ ·)
        ((lookupCum (reconClaimParts mid cum parts).1 p).length :: l) →
      List.Chain' (· ≤ ·)
        ((lookupCum cum p).length ::
          ((tokenContentsForPart p (reconClaimParts mid cum parts).2).map
            String.length ++ l)) := by
  intro parts
  induction parts with
  | nil => intro cum p l h; simpa using h
  | cons part rest ih =>
    intro cum p l h
    by_cases hc : part.type = "text" ∧
        (lookupCum cum part.id).length < part.text.length
    · simp only [reconClaimParts, if_pos hc] at h ⊢
      by_cases hq : part.id = p
      · subst hq
        rw [tokenContents_cons_some_token, if_pos rfl, List.map_cons,
          List.cons_append, List.chain'_cons]
        refine ⟨le_of_lt hc.2, ?_⟩
        have := ih ((part.id, part.text) :: cum) part.id l h
        rwa [lookupCum_cons_self] at this
      · rw [tokenContents_cons_some_token, if_neg hq]
        have := ih ((part.id, part.text) :: cum) p l h
        rwa [lookupCum_cons_ne _ _ hq] at this
    · simp only [reconClaimParts, if_neg hc] at h ⊢
      exact ih cum p l h

/-- Reconciliation message scan: same continuation property. -/
theorem reconClaim_chain (mid ourId : String) (tracked : List String) :
    ∀ (messages : List OCMessage) (cum : List (String × String))
      (p : String) (l : List Nat),
      List.Chain' (· ≤ ·)
        ((lookupCum (reconClaim mid ourId tracked cum messages).1 p).length ::
          l) →
      List.Chain' (· ≤ ·)
        ((lookupCum cum p).length ::
          ((tokenContentsForPart p
            (reconClaim mid ourId tracked cum messages).2).map
              String.length ++ l)) := by
  intro messages
  induction messages with
  | nil => intro cum p l h; simpa using h
  | cons msg rest ih =>
    intro cum p l h
    by_cases hc : msg.role = "assistant" ∧
        (msg.parentID = ourId ∨ msg.id ∈ tracked)
    · simp only [reconClaim, if_pos hc] at h ⊢
      rw [tokenContents_append, List.map_append, List.append_assoc]
      exact reconClaimParts_chain mid msg.parts cum p _
        (ih (reconClaimParts mid cum msg.parts).1 p l h)
    · simp only [reconClaim, if_neg hc] at h ⊢
      exact ih cum p l h

/-- The final reconciliation only emits per-part token chains that continue
non-decreasingly from the accumulated lengths at idle time. -/
theorem fetchFinal_chain (mid ourId : String) (cum : List (String × String))
    (tracked : List String) (messages : List OCMessage) (p : String) :
    List.Chain' (· ≤ ·)
      ((lookupCum cum p).length ::
        (tokenContentsForPart p
          (fetchFinalMessageState mid ourId cum tracked messages).2).map
          String.length) := by
  rw [fetchFinal_eq_reconClaim]
  have h0 : List.Chain' (· ≤ ·)
      [(lookupCum (reconClaim mid ourId tracked cum messages).1 p).length] :=
    List.chain'_singleton _
  have := reconClaim_chain mid ourId tracked messages cum p [] h0
  simpa using this

/-- Every reconciliation emission is a token frame. -/
theorem reconClaimParts_tokens (mid : String) :
    ∀ (parts : List FinalPart) (cum : List (String × String)),
      ∀ x ∈ (reconClaimParts mid cum parts).2,
        ∃ q c, x = (some q, BridgeEvent.token c mid) := by
  intro parts
  induction parts with
  | nil => intro cum x hx; simp [reconClaimParts] at hx
  | cons part rest ih =>
    intro cum x hx
    by_cases hc : part.type = "text" ∧
        (lookupCum cum part.id).length < part.text.length
    · simp only [reconClaimParts, if_pos hc] at hx
      rcases List.mem_cons.mp hx with rfl | hx'
      · exact ⟨part.id, part.text, rfl⟩
      · exact ih _ x hx'
    · simp only [reconClaimParts, if_neg hc] at hx
      exact ih _ x hx

/-- Every reconciliation emission is a token frame (message level). -/
theorem reconClaim_tokens (mid ourId : String) (tracked : List String) :
    ∀ (messages : List OCMessage) (cum : List (String × String)),
      ∀ x ∈ (reconClaim mid ourId tracked cum messages).2,
        ∃ q c, x = (some q, BridgeEvent.token c mid) := by
  intro messages
  induction messages with
  | nil => intro cum x hx; simp [reconClaim] at hx
  | cons msg rest ih =>
    intro cum x hx
    by_cases hc : msg.role = "assistant" ∧
        (msg.parentID = ourId ∨ msg.id ∈ tracked)
    · simp only [reconClaim, if_pos hc] at hx
      rcases List.mem_append.mp hx with hx' | hx'
      · exact reconClaimParts_tokens mid msg.parts cum x hx'
      · exact ih _ x hx'
    · simp only [reconClaim, if_neg hc] at hx
      exact ih _ x hx

/-- The final reconciliation never emits an `execution_complete` frame. -/
theorem fetchFinal_no_exec (mid ourId : String)
    (cum : List (String × String)) (tracked : List String)
    (messages : List OCMessage) :
    ∀ x ∈ (fetchFinalMessageState mid ourId cum tracked messages).2,
      isExecutionComplete x.2 = false := by
  intro x hx
  rw [fetchFinal_eq_reconClaim] at hx
  obtain ⟨q, c, rfl⟩ := reconClaim_tokens mid ourId tracked messages cum x hx
  rfl

/-- The stream loop never emits an `execution_complete` frame. -/
theorem streamRun_no_exec (cur ourId mid : String)
    (finalMsgs : List OCMessage) :
    ∀ (events : List SSEEvent) (st : PromptState),
      ∀ x ∈ (streamRun cur ourId mid finalMsgs st events).1,
        isExecutionComplete x.2 = false := by
  intro events
  induction events with
  | nil => intro st x hx; simp [streamRun] at hx
  | cons e rest ih =>
    intro st x hx
    rcases hpe : processEvent cur ourId mid st e with ⟨st', out, sig⟩
    cases sig with
    | none =>
      simp only [streamRun, hpe] at hx
      rcases List.mem_append.mp hx with hxo | hxr
      · exact (processEvent_out_shape cur ourId mid st e hpe "").2 x hxo
      · exact ih st' x hxr
    | some s =>
      cases s with
      | idle =>
        simp only [streamRun, hpe] at hx
        rcases List.mem_append.mp hx with hxo | hxr
        · exact (processEvent_out_shape cur ourId mid st e hpe "").2 x hxo
        · exact fetchFinal_no_exec mid ourId st'.cumulative st'.tracked
            finalMsgs x hxr
      | errored =>
        simp only [streamRun, hpe] at hx
        exact (processEvent_out_shape cur ourId mid st e hpe "").2 x hx

/-- A stream loop ending through the session.error branch ends with the
emitted `error` event. -/
theorem streamRun_errored_last (cur ourId mid : String)
    (finalMsgs : List OCMessage) :
    ∀ (events : List SSEEvent) (st : PromptState)
      (ys : List (Option String × BridgeEvent)),
      streamRun cur ourId mid finalMsgs st events = (ys, .errored) →
      ∃ m, ys.getLast? = some (none, .errorEv m mid) := by
  intro events
  induction events with
  | nil =>
    intro st ys h
    simp only [streamRun] at h
    injection h with h1 h2
    exact StreamEnd.noConfusion h2
  | cons e rest ih =>
    intro st ys h
    rcases hpe : processEvent cur ourId mid st e with ⟨st', out, sig⟩
    cases sig with
    | none =>
      simp only [streamRun, hpe] at h
      rcases hrun : streamRun cur ourId mid finalMsgs st' rest with ⟨ys2, k2⟩
      rw [hrun] at h
      injection h with h1 h2
      subst h1
      subst h2
      obtain ⟨m, hm⟩ := ih st' ys2 hrun
      refine ⟨m, ?_⟩
      rw [List.getLast?_append, hm]
      rfl
    | some s =>
      cases s with
      | idle =>
        simp only [streamRun, hpe] at h
        injection h with h1 h2
        exact StreamEnd.noConfusion h2
      | errored =>
        simp only [streamRun, hpe] at h
        injection h with h1 h2
        obtain ⟨-, hout⟩ := processEvent_errored_eq cur ourId mid st e hpe
        refine ⟨errorMessageOf e.errorMessage, ?_⟩
        rw [← h1, hout]
        rfl

/-- The per-part token lengths of the whole stream loop (reconciliation
included) continue non-decreasingly from the accumulated lengths, at every
run that passes `shrinkCheck` at each step. -/
theorem streamRun_chain (cur ourId mid : String)
    (finalMsgs : List OCMessage) :
    ∀ (events : List SSEEvent) (st : PromptState),
      replaceOKrun cur ourId mid st events = true →
      ∀ p, List.Chain' (· ≤ ·)
        ((lookupCum st.cumulative p).length ::
          (tokenContentsForPart p
            (streamRun cur ourId mid finalMsgs st events).1).map
            String.length) := by
  intro events
  induction events with
  | nil =>
    intro st h p
    simp [streamRun]
  | cons e rest ih =>
    intro st h p
    rcases hpe : processEvent cur ourId mid st e with ⟨st', out, sig⟩
    cases sig with
    | none =>
      simp only [replaceOKrun, hpe, Bool.and_eq_true] at h
      obtain ⟨hsh, hrest⟩ := h
      have hmono := processEvent_cum_mono cur ourId mid st e hpe hsh p
      obtain ⟨hshape, -⟩ := processEvent_out_shape cur ourId mid st e hpe p
      simp only [streamRun, hpe]
      rw [tokenContents_append, List.map_append]
      rcases hshape with h0 | h1
      · rw [h0, List.map_nil, List.nil_append]
        exact chain'_le_head hmono (ih st' hrest p)
      · rw [h1, List.map_cons, List.map_nil, List.singleton_append]
        exact List.chain'_cons.mpr ⟨hmono, ih st' hrest p⟩
    | some s =>
      cases s with
      | idle =>
        obtain ⟨hst, hout⟩ := processEvent_idle_eq cur ourId mid st e hpe
        simp only [streamRun, hpe, hout, List.nil_append, hst]
        exact fetchFinal_chain mid ourId st.cumulative st.tracked finalMsgs p
      | errored =>
        obtain ⟨-, hout⟩ := processEvent_errored_eq cur ourId mid st e hpe
        simp only [streamRun, hpe, hout]
        simp

/-- C1 counterexample: a prompt whose SSE stream carries a `session.error`
event for the current session makes the bridge emit the `error` event and
then `execution_complete` with `success: true` — the generator returns
normally, so `_handle_prompt`'s success path runs; no
`execution_complete{success: false}` is emitted. -/
theorem c1_counterexample :
    handlePromptEvents "ses1" "msg1" "m1" []
        [sessionErrorEvent "ses1" "boom"] =
      [.errorEv "boom" "m1", .executionComplete "m1" true none] ∧
    ((handlePromptEvents "ses1" "msg1" "m1" []
        [sessionErrorEvent "ses1" "boom"]).all
      fun ev => !isFailureComplete ev) = true :=
  ⟨by decide, by decide⟩

/-- C1 amended: for every prompt whose SSE processing ends through the
session.error branch, the bridge emits an `error` event for that prompt's
messageId as the last stream emission and then emits a terminal
`execution_complete` with `success: TRUE` for the same messageId; exactly
one terminal `execution_complete` frame is emitted per prompt. -/
theorem c1_amended_session_error_terminal (cur ourId mid : String)
    (finalMsgs : List OCMessage) (events : List SSEEvent)
    (ys : List (Option String × BridgeEvent))
    (hrun : streamRun cur ourId mid finalMsgs {} events = (ys, .errored)) :
    ∃ m, (ys.map Prod.snd).getLast? = some (.errorEv m mid) ∧
      handlePromptEvents cur ourId mid finalMsgs events =
        ys.map Prod.snd ++ [.executionComplete mid true none] ∧
      (handlePromptEvents cur ourId mid finalMsgs events).countP
        (fun ev => isExecutionComplete ev) = 1 := by
  obtain ⟨m, hm⟩ :=
    streamRun_errored_last cur ourId mid finalMsgs events {} ys hrun
  refine ⟨m, ?_, ?_, ?_⟩
  · rw [List.getLast?_map, hm]
    rfl
  · unfold handlePromptEvents
    rw [hrun]
  · unfold handlePromptEvents
    rw [hrun, List.countP_append]
    have hzero : (ys.map Prod.snd).countP
        (fun ev => isExecutionComplete ev) = 0 := by
      rw [List.countP_eq_zero]
      intro a ha
      obtain ⟨x, hx, rfl⟩ := List.mem_map.mp ha
      have hne := streamRun_no_exec cur ourId mid finalMsgs events {} x
        (by rw [hrun]; exact hx)
      simp [hne]
    rw [hzero]
    rfl

/-- C1 witness: the session.error branch at a concrete stream. -/
theorem c1_witness :
    ∃ m, (([((none : Option String), BridgeEvent.errorEv "boom" "m1")].map
        Prod.snd).getLast? = some (.errorEv m "m1")) ∧
      handlePromptEvents "ses1" "msg1" "m1" []
          [sessionErrorEvent "ses1" "boom"] =
        [((none : Option String), BridgeEvent.errorEv "boom" "m1")].map
            Prod.snd ++ [.executionComplete "m1" true none] ∧
      (handlePromptEvents "ses1" "msg1" "m1" []
          [sessionErrorEvent "ses1" "boom"]).countP
        (fun ev => isExecutionComplete ev) = 1 :=
  c1_amended_session_error_terminal "ses1" "msg1" "m1" []
    [sessionErrorEvent "ses1" "boom"]
    [((none : Option String), BridgeEvent.errorEv "boom" "m1")] (by decide)

/-- C3 counterexample: two full-text (no-delta) updates for the same part,
`"hello"` then `"hi"`: the replace path shortens the accumulated text, so
the emitted token contents for that part have lengths 5 then 2 — not
non-decreasing. -/
theorem c3_counterexample :
    (tokenContentsForPart "p1"
      (streamRun "ses1" "msg1" "m1" [] {}
        [textUpdateEvent "p1" "hello", textUpdateEvent "p1" "hi"]).1).map
      String.length = [5, 2] ∧
    ¬ List.Chain' (· ≤ ·)
      ((tokenContentsForPart "p1"
        (streamRun "ses1" "msg1" "m1" [] {}
          [textUpdateEvent "p1" "hello", textUpdateEvent "p1" "hi"]).1).map
        String.length) := by
  have h5 : (tokenContentsForPart "p1"
      (streamRun "ses1" "msg1" "m1" [] {}
        [textUpdateEvent "p1" "hello", textUpdateEvent "p1" "hi"]).1).map
      String.length = [5, 2] := by decide
  refine ⟨h5, ?_⟩
  rw [h5]
  intro hch
  exact absurd (List.chain'_cons.mp hch).1 (by omega)

/-- C3 amended: within a single prompt, provided every full-text (no-delta)
part update carries text at least as long as the text already accumulated
for its part, for every partId the sequence of content values carried by
the token events emitted for that partId (including those emitted by the
final reconciliation fetch) is non-decreasing in length. -/
theorem c3_amended_token_lengths_monotone (cur ourId mid : String)
    (finalMsgs : List OCMessage) (events : List SSEEvent) (p : String)
    (hok : replaceOKrun cur ourId mid {} events = true) :
    List.Chain' (· ≤ ·)
      ((tokenContentsForPart p
        (streamRun cur ourId mid finalMsgs {} events).1).map
        String.length) :=
  (streamRun_chain cur ourId mid finalMsgs events {} hok p).tail

/-- C3 witness: a growing text stream satisfies the no-shrink condition and
its token lengths are non-decreasing. -/
theorem c3_witness :
    replaceOKrun "ses1" "msg1" "m1" {}
      [textUpdateEvent "p1" "hel", textUpdateEvent "p1" "hello"] = true ∧
    List.Chain' (· ≤ ·)
      ((tokenContentsForPart "p1"
        (streamRun "ses1" "msg1" "m1" [] {}
          [textUpdateEvent "p1" "hel", textUpdateEvent "p1" "hello"]).1).map
        String.length) :=
  ⟨by decide, c3_amended_token_lengths_monotone "ses1" "msg1" "m1" [] _ "p1"
    (by decide)⟩

end AgentBridge
